import Mathlib

/-!
Verification of the jbangdev cloudflare metadata worker (src/src/index.ts)
against its natural-language specification.

The worker is a single request handler.  We give a shallow embedding of its
pure data and control flow:

* JSON documents are modelled by the inductive `Json` (JSON.parse produces
  finite trees; object fields keep their insertion order, array elements
  their index order).
* URLs are modelled by the record `Url`, keeping the components the code
  reads or writes: scheme, host, pathname, query parameters (in order) and
  fragment.
* The network is modelled by an oracle `FetchReq → FetchOutcome` passed to
  the handler; exceptions of `fetch`/`res.json()` become explicit outcome
  constructors, so the embedded handler is a total function (the code never
  lets an exception escape to the caller).
-/

/-- JSON values as produced by `JSON.parse`. -/
inductive Json where
  | null : Json
  | bool (b : Bool) : Json
  | num (n : Int) : Json
  | str (s : String) : Json
  | arr (elems : List Json) : Json
  | obj (fields : List (String × Json)) : Json
deriving Repr

/-- The `DirectMatch` record type of the worker: the matched download url,
the lowercased file type and the diagnostic path of the matching node. -/
structure DirectMatch where
  url : String
  fileType : String
  jsonPath : String
deriving DecidableEq, Repr

/-- Model of JavaScript `String.prototype.toLowerCase` (ASCII case folding,
which is all the worker relies on: its comparisons are against the ASCII
literals "tar.gz", "zip" and ".json"). -/
def toLowerStr (s : String) : String :=
  String.mk (s.data.map Char.toLower)

/-- `targetTypes` of `findFirstDirectMatch`: the set `{"tar.gz", "zip"}`. -/
def targetTypes : List String := ["tar.gz", "zip"]

/-- Path of a field `k` under `path`: the source's
`path ? path + "." + k : k` (empty string is falsy). -/
def fieldPath (path k : String) : String :=
  if path = "" then k else path ++ "." ++ k

/-- Path of array index `i` under `path`: the source's `path + "[" + i + "]"`. -/
def indexPath (path : String) (i : Nat) : String :=
  path ++ "[" ++ toString i ++ "]"

/-- The object-match step of `walk` (lines 48-54 of the source): read
`obj.file_type` (a string, lowercased, else null) and `obj.url` (a string,
else null); `if (fileType && url && targetTypes.has(fileType))` — the
truthiness checks mean both strings must additionally be nonempty (the
empty string is falsy in JavaScript) — produce the `DirectMatch`. -/
def objMatch (fields : List (String × Json)) (path : String) : Option DirectMatch :=
  let fileType : Option String :=
    match List.lookup "file_type" fields with
    | some (Json.str s) => some (toLowerStr s)
    | _ => none
  let url : Option String :=
    match List.lookup "url" fields with
    | some (Json.str s) => some s
    | _ => none
  match fileType, url with
  | some ft, some u =>
    if ft ≠ "" ∧ u ≠ "" ∧ ft ∈ targetTypes then some ⟨u, ft, path⟩ else none
  | _, _ => none

mutual
/-- The recursive `walk` of `findFirstDirectMatch`, on parsed JSON trees.
`JSON.parse` returns a tree of pairwise-distinct fresh references, so the
`seen` guard of the source never fires on parsed values and is the identity
here; the guard is modelled explicitly on object graphs by `walkGraph`
below.  Leaves (null and non-objects) return no match; arrays are walked in
index order; an object is checked first (`objMatch`), then its fields are
walked in insertion order. -/
def walkTree : Json → String → Option DirectMatch
  | Json.null, _ => none
  | Json.bool _, _ => none
  | Json.num _, _ => none
  | Json.str _, _ => none
  | Json.arr elems, path => walkArr elems 0 path
  | Json.obj fields, path =>
    match objMatch fields path with
    | some m => some m
    | none => walkFields fields path

/-- The `for` loop over array elements (lines 40-46): try each element in
index order, returning the first hit. -/
def walkArr : List Json → Nat → String → Option DirectMatch
  | [], _, _ => none
  | x :: xs, i, path =>
    match walkTree x (indexPath path i) with
    | some m => some m
    | none => walkArr xs (i + 1) path

/-- The `for` loop over `Object.entries(obj)` (lines 56-59): try each field
value in insertion order, returning the first hit. -/
def walkFields : List (String × Json) → String → Option DirectMatch
  | [], _ => none
  | (k, v) :: fs, path =>
    match walkTree v (fieldPath path k) with
    | some m => some m
    | none => walkFields fs path
end

/-- `findFirstDirectMatch` (lines 31-64): walk from the root with the empty
path. -/
def findFirstDirectMatch (value : Json) : Option DirectMatch :=
  walkTree value ""

example : findFirstDirectMatch
    (Json.obj [("a", Json.arr
      [Json.obj [("file_type", Json.str "exe"), ("url", Json.str "x")],
       Json.obj [("file_type", Json.str "TAR.GZ"), ("url", Json.str "http://h/f.tar.gz")]])])
    = some ⟨"http://h/f.tar.gz", "tar.gz", "a[1]"⟩ := by
  decide

/-! ### Specification-side model of the traversal (for claim C1)

Written from the spec's words, independently of the `walk` recursion: the
pre-order list of all object nodes together with their paths, and the
qualification predicate "has a string `file_type` field case-insensitively
equal to tar.gz or zip and a string `url` field". -/

mutual
/-- All object nodes of a JSON tree with their paths, in pre-order (an
object before its field values; object keys in insertion order, arrays in
index order). -/
def preorderTree : Json → String → List (List (String × Json) × String)
  | Json.null, _ => []
  | Json.bool _, _ => []
  | Json.num _, _ => []
  | Json.str _, _ => []
  | Json.arr elems, path => preorderArr elems 0 path
  | Json.obj fields, path => (fields, path) :: preorderFields fields path

/-- Pre-order object nodes of array elements, in index order. -/
def preorderArr : List Json → Nat → String → List (List (String × Json) × String)
  | [], _, _ => []
  | x :: xs, i, path => preorderTree x (indexPath path i) ++ preorderArr xs (i + 1) path

/-- Pre-order object nodes of object field values, in key insertion order. -/
def preorderFields : List (String × Json) → String → List (List (String × Json) × String)
  | [], _ => []
  | (k, v) :: fs, path => preorderTree v (fieldPath path k) ++ preorderFields fs path
end

/-- Amended spec wording: the object has a string `file_type` field that
is case-insensitively `"tar.gz"` or `"zip"`, and a nonempty string `url`
field (the code's `fileType && url` truthiness check skips an empty-string
url). -/
def qualifiesSpec (fields : List (String × Json)) : Bool :=
  (match List.lookup "file_type" fields with
   | some (Json.str ft) => decide (toLowerStr ft = "tar.gz" ∨ toLowerStr ft = "zip")
   | _ => false)
  && (match List.lookup "url" fields with
      | some (Json.str s) => decide (s ≠ "")
      | _ => false)

/-- The original claim's qualification predicate, used only by the C1
counterexample: any string `url` field qualifies, the empty string
included. -/
def qualifiesAnyUrl (fields : List (String × Json)) : Bool :=
  (match List.lookup "file_type" fields with
   | some (Json.str ft) => decide (toLowerStr ft = "tar.gz" ∨ toLowerStr ft = "zip")
   | _ => false)
  && (match List.lookup "url" fields with
      | some (Json.str _) => true
      | _ => false)

/-- The match the spec promises for a qualifying object: its `url` field,
its `file_type` field lowercased, and the path to the object. -/
def mkSpecMatch (fields : List (String × Json)) (path : String) : DirectMatch :=
  { url := match List.lookup "url" fields with
           | some (Json.str s) => s
           | _ => ""
    fileType := match List.lookup "file_type" fields with
                | some (Json.str s) => toLowerStr s
                | _ => ""
    jsonPath := path }

/-- The first qualifying entry of a pre-order object list, as a match. -/
def specOf (l : List (List (String × Json) × String)) : Option DirectMatch :=
  (l.find? fun e => qualifiesSpec e.1).map fun e => mkSpecMatch e.1 e.2

theorem specOf_nil : specOf [] = none := rfl

theorem specOf_cons (fs : List (String × Json)) (path : String)
    (rest : List (List (String × Json) × String)) :
    specOf ((fs, path) :: rest) =
      if qualifiesSpec fs then some (mkSpecMatch fs path) else specOf rest := by
  by_cases h : qualifiesSpec fs
  · simp [specOf, List.find?_cons_of_pos, h]
  · simp only [Bool.not_eq_true] at h
    simp [specOf, List.find?_cons_of_neg, h]

theorem specOf_append (a b : List (List (String × Json) × String)) :
    specOf (a ++ b) = (specOf a).or (specOf b) := by
  simp only [specOf, List.find?_append]
  cases List.find? (fun e => qualifiesSpec e.1) a <;> simp

/-- The source's truthiness-and-membership condition coincides with the
amended spec condition: membership in `{tar.gz, zip}` already forces the
lowercased file type to be nonempty. -/
theorem targetCond_iff (s t : String) :
    (toLowerStr s ≠ "" ∧ t ≠ "" ∧ toLowerStr s ∈ targetTypes) ↔
      ((toLowerStr s = "tar.gz" ∨ toLowerStr s = "zip") ∧ t ≠ "") := by
  unfold targetTypes
  constructor
  · rintro ⟨-, ht, hm⟩
    exact ⟨by simpa using hm, ht⟩
  · rintro ⟨hd, ht⟩
    refine ⟨?_, ht, by simpa using hd⟩
    rcases hd with h | h <;> rw [h] <;> decide

/-- `objMatch` agrees with the spec's qualification predicate and match
construction. -/
theorem objMatch_eq_spec (fields : List (String × Json)) (path : String) :
    objMatch fields path =
      if qualifiesSpec fields then some (mkSpecMatch fields path) else none := by
  unfold objMatch qualifiesSpec mkSpecMatch
  rcases hft : List.lookup "file_type" fields with _ | jft
  · simp
  · rcases hurl : List.lookup "url" fields with _ | jurl
    · cases jft <;> simp
    · cases jft <;> cases jurl <;> simp [targetCond_iff]

/-- Joint induction: each of the three mutually recursive walkers computes
the first qualifying entry of the corresponding pre-order object list. -/
theorem walk_eq_spec_aux :
    ∀ n : Nat,
      (∀ (v : Json) (path : String), sizeOf v ≤ n →
        walkTree v path = specOf (preorderTree v path)) ∧
      (∀ (xs : List Json) (i : Nat) (path : String), sizeOf xs ≤ n →
        walkArr xs i path = specOf (preorderArr xs i path)) ∧
      (∀ (fs : List (String × Json)) (path : String), sizeOf fs ≤ n →
        walkFields fs path = specOf (preorderFields fs path)) := by
  intro n
  induction n using Nat.strong_induction_on with
  | _ n ih =>
    refine ⟨?_, ?_, ?_⟩
    · intro v path hv
      cases v with
      | null => simp [walkTree, preorderTree, specOf]
      | bool b => simp [walkTree, preorderTree, specOf]
      | num m => simp [walkTree, preorderTree, specOf]
      | str s => simp [walkTree, preorderTree, specOf]
      | arr elems =>
        have hs : sizeOf elems < n := by
          have := Json.arr.sizeOf_spec elems
          omega
        have hrec := (ih (sizeOf elems) hs).2.1 elems 0 path le_rfl
        simpa [walkTree, preorderTree] using hrec
      | obj fields =>
        have hs : sizeOf fields < n := by
          have := Json.obj.sizeOf_spec fields
          omega
        have hrec := (ih (sizeOf fields) hs).2.2 fields path le_rfl
        by_cases hq : qualifiesSpec fields
        · simp [walkTree, preorderTree, specOf_cons, objMatch_eq_spec, hq]
        · simp [walkTree, preorderTree, specOf_cons, objMatch_eq_spec, hq, hrec]
    · intro xs i path hxs
      cases xs with
      | nil => simp [walkArr, preorderArr, specOf]
      | cons x rest =>
        have hcons := List.cons.sizeOf_spec x rest
        have h1 : sizeOf x < n := by omega
        have h2 : sizeOf rest < n := by omega
        have hx := (ih (sizeOf x) h1).1 x (indexPath path i) le_rfl
        have hr := (ih (sizeOf rest) h2).2.1 rest (i + 1) path le_rfl
        simp only [walkArr, preorderArr, specOf_append, hx, hr]
        cases specOf (preorderTree x (indexPath path i)) <;> simp
    · intro fs path hfs
      cases fs with
      | nil => simp [walkFields, preorderFields, specOf]
      | cons kv rest =>
        obtain ⟨k, v⟩ := kv
        have hcons := List.cons.sizeOf_spec (k, v) rest
        have hpair : sizeOf (k, v) = 1 + sizeOf k + sizeOf v := Prod.mk.sizeOf_spec k v
        have h1 : sizeOf v < n := by omega
        have h2 : sizeOf rest < n := by omega
        have hx := (ih (sizeOf v) h1).1 v (fieldPath path k) le_rfl
        have hr := (ih (sizeOf rest) h2).2.2 rest path le_rfl
        simp only [walkFields, preorderFields, specOf_append, hx, hr]
        cases specOf (preorderTree v (fieldPath path k)) <;> simp

/-- The traversal equals the specification: `findFirstDirectMatch` returns
the first qualifying object of the pre-order enumeration. -/
theorem findFirstDirectMatch_eq_spec (v : Json) :
    findFirstDirectMatch v = specOf (preorderTree v "") :=
  (walk_eq_spec_aux (sizeOf v)).1 v "" le_rfl

/-- Claim C1, amended: for every parsed JSON value, `findFirstDirectMatch`
returns the first object of the pre-order traversal (object keys in
insertion order, arrays in index order) that has a string `file_type`
field case-insensitively equal to "tar.gz" or "zip" and a *nonempty*
string `url` field — the source's `fileType && url` truthiness check
skips an empty-string url — with `fileType` lowercased and `jsonPath` the
dotted/bracketed path; on the input `{"a": [{"file_type":"exe","url":"x"},
{"file_type":"TAR.GZ","url":"http://h/f.tar.gz"}]}` the result is
`fileType "tar.gz"`, `url "http://h/f.tar.gz"`, `jsonPath "a[1]"`; and it
returns no match when no object qualifies. -/
theorem findFirstDirectMatch_first_preorder :
    (∀ v : Json, findFirstDirectMatch v =
      ((preorderTree v "").find? fun e => qualifiesSpec e.1).map fun e =>
        mkSpecMatch e.1 e.2) ∧
    findFirstDirectMatch (Json.obj [("a", Json.arr
      [Json.obj [("file_type", Json.str "exe"), ("url", Json.str "x")],
       Json.obj [("file_type", Json.str "TAR.GZ"),
                 ("url", Json.str "http://h/f.tar.gz")]])])
      = some ⟨"http://h/f.tar.gz", "tar.gz", "a[1]"⟩ ∧
    (∀ v : Json, (∀ e ∈ preorderTree v "", qualifiesSpec e.1 = false) →
      findFirstDirectMatch v = none) := by
  refine ⟨fun v => findFirstDirectMatch_eq_spec v, by decide, fun v h => ?_⟩
  have hnone : (preorderTree v "").find? (fun e => qualifiesSpec e.1) = none :=
    List.find?_eq_none.mpr fun e he => by simp [h e he]
  rw [findFirstDirectMatch_eq_spec]
  simp [specOf, hnone]

/-- Witness for C1: the no-match clause at a concrete input. -/
theorem findFirstDirectMatch_first_preorder_witness :
    findFirstDirectMatch (Json.obj [("file_type", Json.str "exe"),
      ("url", Json.str "http://h/f.exe")]) = none :=
  findFirstDirectMatch_first_preorder.2.2 _ (by decide)

/-- The C1 counterexample document:
`{"a": {"file_type":"zip","url":""}, "b": {"file_type":"zip","url":"https://x/y.zip"}}`. -/
def emptyUrlDoc : Json :=
  Json.obj [("a", Json.obj [("file_type", Json.str "zip"), ("url", Json.str "")]),
            ("b", Json.obj [("file_type", Json.str "zip"),
                            ("url", Json.str "https://x/y.zip")])]

/-- Counterexample to C1 as stated: the first pre-order object with a
string `file_type` in {tar.gz, zip} and a string `url` field — any
string, as the claim says — is the `"a"` object, whose url is the empty
string; the claim therefore predicts the match `⟨"", "zip", "a"⟩`.  But
`""` is falsy in the source's `fileType && url` check, so the code skips
that object and returns the `"b"` match instead. -/
theorem findFirstDirectMatch_first_preorder_counterexample :
    (((preorderTree emptyUrlDoc "").find? fun e => qualifiesAnyUrl e.1).map
        fun e => mkSpecMatch e.1 e.2) = some ⟨"", "zip", "a"⟩ ∧
    findFirstDirectMatch emptyUrlDoc = some ⟨"https://x/y.zip", "zip", "b"⟩ ∧
    findFirstDirectMatch emptyUrlDoc ≠ some ⟨"", "zip", "a"⟩ := by
  refine ⟨by decide, by decide, by decide⟩


/-! ### URL model and the upstream URL builder (claim C2)

A URL is modelled by the components the worker reads or writes: scheme,
host, pathname, the ordered list of query parameters (the `searchParams`
view of the query string) and the fragment (`hash`, carrying its leading
`#` when nonempty, as in the browser API). -/

structure Url where
  scheme : String
  host : String
  pathname : String
  params : List (String × String)
  hash : String
deriving DecidableEq, Repr

/-- Serialization of the query parameters, as in `URL.toString()`. -/
def searchOf (ps : List (String × String)) : String :=
  match ps with
  | [] => ""
  | _ => "?" ++ String.intercalate "&" (ps.map fun p => p.1 ++ "=" ++ p.2)

/-- `URL.toString()`, to the precision the worker observes (it only embeds
the result in diagnostic text). -/
def Url.toStr (u : Url) : String :=
  u.scheme ++ "://" ++ u.host ++ u.pathname ++ searchOf u.params ++ u.hash

/-- The `marker` literal of `buildUpstreamMetadataUrl`. -/
def markerStr : String := "/metadata/"

/-- Scheme of `UPSTREAM_HOST = "https://jbangdev.github.io"`. -/
def upstreamScheme : String := "https"

/-- Host of `UPSTREAM_HOST = "https://jbangdev.github.io"`. -/
def upstreamHost : String := "jbangdev.github.io"

/-- The fixed upstream path constant of the worker,
`"/jdkdb-data/metadata/"`. -/
def upstreamMetadataBase : String := "/jdkdb-data/metadata/"

/-- Model of JavaScript `String.prototype.indexOf` restricted to found /
not-found (the source only compares the result with `-1` and adds the
marker length): index of the first occurrence of `pat` in `s`. -/
def indexOfSub (pat : List Char) : List Char → Option Nat
  | [] => if pat.isPrefixOf [] then some 0 else none
  | c :: t =>
    if pat.isPrefixOf (c :: t) then some 0
    else (indexOfSub pat t).map (· + 1)

theorem indexOfSub_some_prefix {pat : List Char} :
    ∀ {s : List Char} {i : Nat}, indexOfSub pat s = some i → pat <+: s.drop i := by
  intro s
  induction s with
  | nil =>
    intro i h
    unfold indexOfSub at h
    split at h
    · rename_i hp
      cases h
      simpa using List.isPrefixOf_iff_prefix.mp hp
    · exact absurd h (by simp)
  | cons c t ih =>
    intro i h
    unfold indexOfSub at h
    split at h
    · rename_i hp
      cases h
      simpa using List.isPrefixOf_iff_prefix.mp hp
    · rcases Option.map_eq_some'.mp h with ⟨i', hi', rfl⟩
      simpa using ih hi'

theorem indexOfSub_some_min {pat : List Char} :
    ∀ {s : List Char} {i : Nat}, indexOfSub pat s = some i →
      ∀ j, pat <+: s.drop j → i ≤ j := by
  intro s
  induction s with
  | nil =>
    intro i h j _
    unfold indexOfSub at h
    split at h
    · cases h; exact Nat.zero_le j
    · exact absurd h (by simp)
  | cons c t ih =>
    intro i h j hj
    unfold indexOfSub at h
    split at h
    · cases h; exact Nat.zero_le j
    · rename_i hp
      rcases Option.map_eq_some'.mp h with ⟨i', hi', rfl⟩
      cases j with
      | zero =>
        exact absurd (List.isPrefixOf_iff_prefix.mpr (by simpa using hj)) hp
      | succ j' =>
        exact Nat.succ_le_succ (ih hi' j' (by simpa using hj))

theorem indexOfSub_none {pat : List Char} :
    ∀ {s : List Char}, indexOfSub pat s = none → ∀ j, ¬ pat <+: s.drop j := by
  intro s
  induction s with
  | nil =>
    intro h j hj
    unfold indexOfSub at h
    split at h
    · cases h
    · rename_i hp
      exact hp (List.isPrefixOf_iff_prefix.mpr (by simpa using hj))
  | cons c t ih =>
    intro h j hj
    unfold indexOfSub at h
    split at h
    · cases h
    · rename_i hp
      cases j with
      | zero => exact hp (List.isPrefixOf_iff_prefix.mpr (by simpa using hj))
      | succ j' =>
        have ht : indexOfSub pat t = none := by
          cases hopt : indexOfSub pat t with
          | none => rfl
          | some k => rw [hopt] at h; simp at h
        exact ih ht j' (by simpa using hj)

/-- An occurrence of `pat` at offset `pre.length` makes `pat` a prefix of
the drop at that offset. -/
theorem occurrence_prefix_drop {pat s pre rest : List Char}
    (h : s = pre ++ pat ++ rest) : pat <+: s.drop pre.length := by
  subst h
  rw [List.append_assoc, List.drop_left]
  exact ⟨rest, rfl⟩

/-- A found index is a genuine first occurrence: it is within bounds, it
splits the string there, and no occurrence starts earlier. -/
theorem indexOfSub_some_split {pat s : List Char} {idx : Nat} (hpat : pat ≠ [])
    (hidx : indexOfSub pat s = some idx) :
    idx ≤ s.length ∧
    s = s.take idx ++ pat ++ s.drop (idx + pat.length) ∧
    ∀ pre' rest' : List Char, s = pre' ++ pat ++ rest' → idx ≤ pre'.length := by
  have hpref := indexOfSub_some_prefix hidx
  have hle : idx ≤ s.length := by
    by_contra hgt
    push_neg at hgt
    rw [List.drop_eq_nil_of_le (le_of_lt hgt)] at hpref
    exact hpat (List.prefix_nil.mp hpref)
  obtain ⟨tail, htail⟩ := hpref
  have hsplit : s = s.take idx ++ pat ++ tail := by
    conv_lhs => rw [← List.take_append_drop idx s, ← htail]
    rw [List.append_assoc]
  have hdrop : s.drop (idx + pat.length) = tail := by
    have h1 : s.drop (idx + pat.length) = (s.drop idx).drop pat.length := by
      rw [List.drop_drop, Nat.add_comm]
    rw [h1, ← htail, List.drop_left]
  refine ⟨hle, by rw [hdrop]; exact hsplit, fun pre' rest' h' =>
    indexOfSub_some_min hidx pre'.length (occurrence_prefix_drop h')⟩

/-- `buildUpstreamMetadataUrl` (lines 12-25 of the source): find the first
occurrence of `"/metadata/"` in the inbound pathname; if absent return
null; otherwise build a URL with the fixed upstream scheme and host, the
constant upstream path plus everything after the marker, and the inbound
query string and fragment copied verbatim. -/
def buildUpstreamMetadataUrl (inbound : Url) : Option Url :=
  match indexOfSub markerStr.data inbound.pathname.data with
  | none => none
  | some idx =>
    some { scheme := upstreamScheme
           host := upstreamHost
           pathname := upstreamMetadataBase ++
             String.mk (inbound.pathname.data.drop (idx + markerStr.length))
           params := inbound.params
           hash := inbound.hash }

/-- Claim C2: for every inbound URL whose path contains `"/metadata/"`,
`buildUpstreamMetadataUrl` returns a URL with the fixed upstream scheme and
host `https://jbangdev.github.io` (independent of the inbound scheme and
host), path equal to the constant `"/jdkdb-data/metadata/"` followed by
everything after the end of the first occurrence of the marker, and the
inbound query parameters and fragment copied verbatim; the first-occurrence
clause settles paths with several markers; when the marker is absent it
returns null. -/
theorem buildUpstream_maps_first_marker (inbound : Url) :
    (∀ u : Url, buildUpstreamMetadataUrl inbound = some u ↔
      ∃ pre rest : List Char,
        inbound.pathname.data = pre ++ markerStr.data ++ rest ∧
        (∀ pre' rest' : List Char,
          inbound.pathname.data = pre' ++ markerStr.data ++ rest' →
            pre.length ≤ pre'.length) ∧
        u = { scheme := upstreamScheme, host := upstreamHost,
              pathname := upstreamMetadataBase ++ String.mk rest,
              params := inbound.params, hash := inbound.hash }) ∧
    (buildUpstreamMetadataUrl inbound = none ↔
      ∀ pre rest : List Char,
        inbound.pathname.data ≠ pre ++ markerStr.data ++ rest) := by
  have hpat : markerStr.data ≠ [] := by decide
  cases hidx : indexOfSub markerStr.data inbound.pathname.data with
  | none =>
    refine ⟨fun u => ?_, ?_⟩
    · simp only [buildUpstreamMetadataUrl, hidx]
      constructor
      · intro h; cases h
      · rintro ⟨pre, rest, hsplit, -, -⟩
        exact absurd (occurrence_prefix_drop hsplit)
          (indexOfSub_none hidx pre.length)
    · simp only [buildUpstreamMetadataUrl, hidx]
      constructor
      · intro _ pre rest h
        exact absurd (occurrence_prefix_drop h) (indexOfSub_none hidx pre.length)
      · intro _; trivial
  | some idx =>
    obtain ⟨hle, hsplit, hmin⟩ := indexOfSub_some_split hpat hidx
    have hlen : (inbound.pathname.data.take idx).length = idx := by
      rw [List.length_take]
      exact Nat.min_eq_left hle
    refine ⟨fun u => ?_, ?_⟩
    · simp only [buildUpstreamMetadataUrl, hidx, Option.some.injEq]
      constructor
      · intro h
        refine ⟨inbound.pathname.data.take idx,
          inbound.pathname.data.drop (idx + markerStr.data.length), hsplit,
          fun pre' rest' h' => by rw [hlen]; exact hmin pre' rest' h', ?_⟩
        rw [← h]
        rfl
      · rintro ⟨pre, rest, hsplit', hmin', rfl⟩
        have h1 : idx ≤ pre.length := hmin pre rest hsplit'
        have h2 : pre.length ≤ idx := by
          have := hmin' (inbound.pathname.data.take idx)
            (inbound.pathname.data.drop (idx + markerStr.data.length)) hsplit
          rwa [hlen] at this
        have hpre : pre.length = idx := Nat.le_antisymm h2 h1
        have hdl : ((pre ++ markerStr.data) ++ rest).drop
            (pre ++ markerStr.data).length = rest := List.drop_left _ _
        rw [← hsplit'] at hdl
        rw [List.length_append, hpre] at hdl
        have hdl' : inbound.pathname.data.drop (idx + markerStr.length) = rest := hdl
        rw [hdl']
    · simp only [buildUpstreamMetadataUrl, hidx]
      constructor
      · intro h; cases h
      · intro hall
        exact absurd hsplit (hall _ _)

/-- Witness for C2: on the inbound path `/java/metadata/ga/x.json` the
builder's result is a genuine first-occurrence split, with the upstream URL
having path `/jdkdb-data/metadata/ga/x.json` and the query and fragment
preserved. -/
theorem buildUpstream_maps_first_marker_witness :
    ∃ pre rest : List Char,
      ("/java/metadata/ga/x.json" : String).data = pre ++ markerStr.data ++ rest ∧
      (∀ pre' rest' : List Char,
        ("/java/metadata/ga/x.json" : String).data = pre' ++ markerStr.data ++ rest' →
          pre.length ≤ pre'.length) ∧
      ({ scheme := upstreamScheme, host := upstreamHost,
         pathname := "/jdkdb-data/metadata/ga/x.json",
         params := [("direct", ""), ("v", "1")], hash := "#frag" } : Url) =
        { scheme := upstreamScheme, host := upstreamHost,
          pathname := upstreamMetadataBase ++ String.mk rest,
          params := [("direct", ""), ("v", "1")], hash := "#frag" } :=
  ((buildUpstream_maps_first_marker
      { scheme := "http", host := "example.com",
        pathname := "/java/metadata/ga/x.json",
        params := [("direct", ""), ("v", "1")], hash := "#frag" }).1
    { scheme := upstreamScheme, host := upstreamHost,
      pathname := "/jdkdb-data/metadata/ga/x.json",
      params := [("direct", ""), ("v", "1")], hash := "#frag" }).mp (by decide)

/-! ### Classifier, responses and the request handler -/

/-- Model of JavaScript `String.prototype.endsWith`. -/
def endsWithStr (s tail : String) : Bool :=
  tail.data.isSuffixOf s.data

/-- `isDirectJsonRequest` (lines 27-29 of the source): the query string has
a parameter named `direct` (presence only, value ignored) and the
lowercased pathname ends with `".json"`. -/
def isDirectJsonRequest (url : Url) : Bool :=
  url.params.any (fun p => p.1 == "direct") &&
    endsWithStr (toLowerStr url.pathname) ".json"

/-- Lowercase hexadecimal digit. -/
def hexDigit (n : Nat) : Char :=
  if n < 10 then Char.ofNat (48 + n) else Char.ofNat (87 + n)

/-- Four lowercase hexadecimal digits, as in `\u00XX` escapes. -/
def hex4 (n : Nat) : String :=
  String.mk [hexDigit (n / 4096 % 16), hexDigit (n / 256 % 16),
             hexDigit (n / 16 % 16), hexDigit (n % 16)]

/-- JSON string character escaping as in `JSON.stringify`. -/
def jsonEscapeChar (c : Char) : String :=
  if c = '"' then "\\\""
  else if c = '\\' then "\\\\"
  else if c = '\n' then "\\n"
  else if c = '\r' then "\\r"
  else if c = '\t' then "\\t"
  else if c = Char.ofNat 8 then "\\b"
  else if c = Char.ofNat 12 then "\\f"
  else if c.toNat < 32 then "\\u" ++ hex4 c.toNat
  else String.singleton c

/-- A JSON string literal: quoted and escaped. -/
def jsonQuote (s : String) : String :=
  "\"" ++ String.join (s.data.map jsonEscapeChar) ++ "\""

/-- `n` spaces. -/
def spacesStr (n : Nat) : String :=
  String.mk (List.replicate n ' ')

mutual
/-- `JSON.stringify(v, null, 2)` of a value at nesting depth `d`: 2-space
indentation per level, members on their own lines, `[]`/empty braces for
empty containers. -/
def stringifyIndent : Nat → Json → String
  | _, Json.null => "null"
  | _, Json.bool b => if b then "true" else "false"
  | _, Json.num n => toString n
  | _, Json.str s => jsonQuote s
  | _, Json.arr [] => "[]"
  | d, Json.arr (x :: xs) =>
    "[\n" ++ String.intercalate ",\n" (stringifyItems (d + 1) (x :: xs)) ++
      "\n" ++ spacesStr (2 * d) ++ "]"
  | _, Json.obj [] => "\x7b\x7d"
  | d, Json.obj (f :: fs) =>
    "\x7b\n" ++ String.intercalate ",\n" (stringifyMembers (d + 1) (f :: fs)) ++
      "\n" ++ spacesStr (2 * d) ++ "\x7d"

/-- Array items, each indented to depth `d`. -/
def stringifyItems : Nat → List Json → List String
  | _, [] => []
  | d, x :: xs => (spacesStr (2 * d) ++ stringifyIndent d x) :: stringifyItems d xs

/-- Object members, each indented to depth `d`, as `"key": value`. -/
def stringifyMembers : Nat → List (String × Json) → List String
  | _, [] => []
  | d, (k, v) :: fs =>
    (spacesStr (2 * d) ++ jsonQuote k ++ ": " ++ stringifyIndent d v) ::
      stringifyMembers d fs
end

/-- The response the handler produces: status, headers and an optional
plain-text body (`none` models a `null` body). -/
structure WResponse where
  status : Nat
  headers : List (String × String)
  body : Option String
deriving DecidableEq, Repr

/-- `notFoundWithContext` (lines 66-76): a 404 response with content type
`text/plain; charset=utf-8` whose body is the banner line, a blank line,
the message, a blank line, the literal line `Context:` and the context
serialized as 2-space-indented JSON, with a trailing newline. -/
def notFoundWithContext (message : String) (context : Json) : WResponse :=
  { status := 404
    headers := [("content-type", "text/plain; charset=utf-8")]
    body := some ("404 Not Found\n\n" ++ message ++ "\n\n" ++
      "Context:\n" ++ stringifyIndent 0 context ++ "\n") }

/-- A URL scheme character after the first: ASCII alphanumeric, `+`, `-`
or `.`. -/
def schemeChar (c : Char) : Bool :=
  c.isAlphanum || c = '+' || c = '-' || c = '.'

/-- Scheme scanner of the WHATWG URL parser: consume scheme characters up
to a `:`, returning the lowercased scheme and the remainder. -/
def parseSchemeTail (acc : List Char) : List Char → Option (String × List Char)
  | [] => none
  | c :: rest =>
    if c = ':' then some (String.mk acc.reverse, rest)
    else if schemeChar c then parseSchemeTail (c.toLower :: acc) rest
    else none

/-- Parse the scheme of an absolute URL: an ASCII alpha followed by scheme
characters and a `:`. -/
def parseScheme (s : List Char) : Option (String × List Char) :=
  match s with
  | [] => none
  | c :: rest => if c.isAlpha then parseSchemeTail [c.toLower] rest else none

/-- The WHATWG special schemes. -/
def specialSchemes : List String := ["ftp", "file", "http", "https", "ws", "wss"]

/-- The URL parser's input preprocessing: remove leading and trailing C0
controls and spaces, then remove every tab, line feed and carriage
return. -/
def urlInput (s : String) : List Char :=
  (((s.data.dropWhile fun c => c.toNat ≤ 32).reverse.dropWhile
      fun c => c.toNat ≤ 32).reverse).filter
    fun c => !(c = '\t' || c = '\n' || c = '\r')

/-- An ASCII hexadecimal digit. -/
def isHexDigitChar (c : Char) : Bool :=
  c.isDigit || ('a' ≤ c && c ≤ 'f') || ('A' ≤ c && c ≤ 'F')

/-- Value of an ASCII hexadecimal digit. -/
def hexDigitVal (c : Char) : Nat :=
  if c.isDigit then c.toNat - 48
  else if 'a' ≤ c ∧ c ≤ 'f' then c.toNat - 87
  else c.toNat - 55

/-- Percent-decoding: well-formed `%XY` sequences become their byte;
malformed percents are left as-is. -/
def percentDecode : List Char → List Char
  | '%' :: a :: b :: rest =>
    if isHexDigitChar a && isHexDigitChar b then
      Char.ofNat (16 * hexDigitVal a + hexDigitVal b) :: percentDecode rest
    else '%' :: percentDecode (a :: b :: rest)
  | c :: rest => c :: percentDecode rest
  | [] => []

/-- The WHATWG forbidden host code points. -/
def forbiddenHostChar (c : Char) : Bool :=
  c.toNat = 0 || c = '\t' || c = '\n' || c = '\r' || c = ' ' || c = '#' ||
  c = '/' || c = ':' || c = '<' || c = '>' || c = '?' || c = '@' ||
  c = '[' || c = '\\' || c = ']' || c = '^' || c = '|'

/-- The WHATWG forbidden domain code points: the forbidden host code
points plus C0 controls, `%` and U+007F. -/
def forbiddenDomainChar (c : Char) : Bool :=
  forbiddenHostChar c || c.toNat < 32 || c.toNat = 127 || c = '%'

/-- Decimal value of a digit list. -/
def natOfDigits (l : List Char) : Nat :=
  l.foldl (fun a c => 10 * a + (c.toNat - 48)) 0

/-- Hexadecimal value of a hex-digit list. -/
def natOfHexDigits (l : List Char) : Nat :=
  l.foldl (fun a c => 16 * a + hexDigitVal c) 0

/-- Octal value of an octal-digit list. -/
def natOfOctDigits (l : List Char) : Nat :=
  l.foldl (fun a c => 8 * a + (c.toNat - 48)) 0

/-- An IPv4 number per the WHATWG spec: `0x`/`0X` hexadecimal (possibly
empty digits), leading-zero octal, or decimal; anything else fails. -/
def ipv4Num (l : List Char) : Option Nat :=
  match l with
  | [] => none
  | '0' :: 'x' :: rest =>
    if rest.all isHexDigitChar then some (natOfHexDigits rest) else none
  | '0' :: 'X' :: rest =>
    if rest.all isHexDigitChar then some (natOfHexDigits rest) else none
  | '0' :: rest =>
    if rest = [] then some 0
    else if rest.all (fun c => '0' ≤ c && c ≤ '7') then some (natOfOctDigits rest)
    else none
  | _ => if l.all Char.isDigit then some (natOfDigits l) else none

/-- WHATWG "ends in a number": the last nonempty dot-label of the host is
all ASCII digits or parses as an IPv4 number (a trailing empty label is
ignored). -/
def endsInNumber (host : List Char) : Bool :=
  let labels := host.splitOn '.'
  let labels := if labels.getLast? = some [] then labels.dropLast else labels
  match labels.getLast? with
  | none => false
  | some lab =>
    (!lab.isEmpty && lab.all Char.isDigit) || (ipv4Num lab).isSome

/-- WHATWG IPv4 parser success: at most four dot-labels (one trailing
empty label is dropped), each an IPv4 number, the leading ones at most
255 and the last below `256 ^ (remaining positions)`. -/
def ipv4Ok (host : List Char) : Bool :=
  let parts := host.splitOn '.'
  let parts := if parts.getLast? = some [] then parts.dropLast else parts
  match parts.reverse with
  | [] => false
  | last :: earlier =>
    decide (parts.length ≤ 4) &&
    (match ipv4Num last with
     | none => false
     | some v => decide (v < 256 ^ (5 - parts.length))) &&
    earlier.all fun p =>
      match ipv4Num p with
      | none => false
      | some v => decide (v ≤ 255)

/-- Domain validation for special-scheme hosts: percent-decode, then
reject forbidden domain code points, and a host that ends in a number
must parse as IPv4.  (IDNA/punycode normalization is not modelled: a few
hosts that fail IDNA are accepted.) -/
def domainOk (host : List Char) : Bool :=
  let d := percentDecode host
  d.all (fun c => !forbiddenDomainChar c) &&
  (if endsInNumber d then ipv4Ok d else true)

/-- Rough IPv6 literal check: nonempty, hex digits, colons and dots only,
with at least one colon.  (The full IPv6 grammar is not modelled.) -/
def ipv6Ok (inside : List Char) : Bool :=
  !inside.isEmpty &&
  inside.all (fun c => isHexDigitChar c || c = ':' || c = '.') &&
  inside.contains ':'

/-- A port is valid when all decimal digits and, if nonempty, at most
65535. -/
def portOk (port : List Char) : Bool :=
  port.all Char.isDigit && (port.isEmpty || decide (natOfDigits port ≤ 65535))

/-- The host-and-port part of an authority: everything after the last
`@` (the rest is userinfo). -/
def afterLastAt (authority : List Char) : List Char :=
  (authority.reverse.takeWhile fun c => c != '@').reverse

/-- Host and optional port of a special-scheme authority: a bracketed
IPv6 literal or a nonempty valid domain, followed by an optional
`:port`. -/
def specialHostPortOk (hostport : List Char) : Bool :=
  match hostport with
  | [] => false
  | '[' :: rest =>
    let inside := rest.takeWhile fun c => c != ']'
    let after := rest.dropWhile fun c => c != ']'
    match after with
    | [] => false
    | _ :: tail =>
      ipv6Ok inside &&
      (match tail with
       | [] => true
       | ':' :: port => portOk port
       | _ => false)
  | _ =>
    let host := hostport.takeWhile fun c => c != ':'
    let rest := hostport.dropWhile fun c => c != ':'
    !host.isEmpty && domainOk host &&
    (match rest with
     | [] => true
     | _ :: port => portOk port)

/-- Opaque host of a non-special scheme with an authority: may be empty
(unless userinfo was present); forbidden host code points are rejected
(percent signs are allowed); a port needs a nonempty host. -/
def opaqueHostPortOk (hadAt : Bool) (hostport : List Char) : Bool :=
  match hostport with
  | [] => !hadAt
  | '[' :: rest =>
    let inside := rest.takeWhile fun c => c != ']'
    let after := rest.dropWhile fun c => c != ']'
    match after with
    | [] => false
    | _ :: tail =>
      ipv6Ok inside &&
      (match tail with
       | [] => true
       | ':' :: port => portOk port
       | _ => false)
  | _ =>
    let host := hostport.takeWhile fun c => c != ':'
    let rest := hostport.dropWhile fun c => c != ':'
    host.all (fun c => !forbiddenHostChar c) &&
    (match rest with
     | [] => true
     | _ :: port => !host.isEmpty && portOk port)

/-- Models success of `new URL(input)` with no base (the try/catch in
`isValidAbsoluteUrl`, lines 78-86).  The input is preprocessed (trim C0
controls and spaces, strip tabs and newlines) and must have a URL scheme.
A special scheme other than `file` needs an authority with a valid host:
forbidden host/domain code points are rejected after percent-decoding,
hosts ending in a number must parse as IPv4, bracketed hosts as IPv6
literals, and a port must be decimal and at most 65535.  A non-special
scheme (such as `mailto:` or `data:`) needs no authority and is validated
only when `//` introduces one.  `file` is accepted (its drive-letter and
host quirks are not modelled), and IDNA/punycode normalization of domains
is not modelled; otherwise acceptance follows the WHATWG parser. -/
def canParseUrl (s : String) : Bool :=
  match parseScheme (urlInput s) with
  | none => false
  | some (scheme, rest) =>
    if scheme ∈ specialSchemes then
      if scheme = "file" then true
      else
        let afterSlashes := rest.dropWhile fun c => c == '/' || c == '\\'
        let authority := afterSlashes.takeWhile fun c =>
          c != '/' && c != '\\' && c != '?' && c != '#'
        specialHostPortOk (afterLastAt authority)
    else
      match rest with
      | '/' :: '/' :: rest2 =>
        let authority := rest2.takeWhile fun c => c != '/' && c != '?' && c != '#'
        opaqueHostPortOk (authority.contains '@') (afterLastAt authority)
      | _ => true

/-- `isValidAbsoluteUrl` (lines 78-86): `new URL(maybeUrl)` succeeds. -/
def isValidAbsoluteUrl (maybeUrl : String) : Bool :=
  canParseUrl maybeUrl

/-- Whether an absolute URL has an authority component: its scheme is
followed by `//`. -/
def urlHasAuthority (s : String) : Bool :=
  match parseScheme s.data with
  | none => false
  | some (_, rest) => "//".data.isPrefixOf rest

/-- The request the handler sends upstream: URL, method and headers. -/
structure FetchReq where
  url : Url
  method : String
  headers : List (String × String)
deriving DecidableEq, Repr

/-- Outcome of consuming the upstream response body as JSON
(`res.json()`): a parse failure (the caught exception, stringified) or a
parsed document. -/
inductive JsonBody where
  | parseError (err : String) : JsonBody
  | json (j : Json) : JsonBody

/-- Outcome of the upstream `fetch`: a network-level failure (the caught
exception, stringified) or a response with status, status text, content
type and body. -/
inductive FetchOutcome where
  | networkError (err : String) : FetchOutcome
  | success (status : Nat) (statusText : String) (contentType : Option String)
      (body : JsonBody) : FetchOutcome

/-- What the handler does with a request: hand it to the upstream verbatim
(the plain proxy path, carrying the upstream URL), or produce a response
itself. -/
inductive HandlerResult where
  | passThrough (upstream : Url) : HandlerResult
  | response (res : WResponse) : HandlerResult
deriving DecidableEq, Repr

/-- Whether a handler result is the plain pass-through proxy path. -/
def HandlerResult.takesPassThrough : HandlerResult → Bool
  | HandlerResult.passThrough _ => true
  | HandlerResult.response _ => false

/-- `headers.get("content-type")` serialized into the context: the string,
or JSON null when absent. -/
def jsonOfContentType : Option String → Json
  | some s => Json.str s
  | none => Json.null

def missingMarkerMessage : String :=
  "Request path did not contain a /metadata/ segment, so it could not be proxied."

def missingMarkerContext (u : Url) : Json :=
  Json.obj [("requestUrl", Json.str u.toStr), ("pathname", Json.str u.pathname),
    ("expected", Json.str
      "A path containing \x27/metadata/\x27 (e.g. /java/metadata/ga/... or /metadata/ga/...)")]

def fetchFailedMessage : String := "Upstream fetch failed."

def netErrContext (req up2 : Url) (err : String) : Json :=
  Json.obj [("requestUrl", Json.str req.toStr), ("upstreamUrl", Json.str up2.toStr),
    ("error", Json.str err)]

def nonOkMessage : String := "Upstream returned non-OK status for JSON metadata."

def nonOkContext (req up2 : Url) (status : Nat) (statusText : String)
    (contentType : Option String) : Json :=
  Json.obj [("requestUrl", Json.str req.toStr), ("upstreamUrl", Json.str up2.toStr),
    ("upstreamStatus", Json.num status), ("upstreamStatusText", Json.str statusText),
    ("upstreamContentType", jsonOfContentType contentType)]

def badJsonMessage : String := "Upstream response was not valid JSON."

def badJsonContext (req up2 : Url) (contentType : Option String) (err : String) : Json :=
  Json.obj [("requestUrl", Json.str req.toStr), ("upstreamUrl", Json.str up2.toStr),
    ("upstreamContentType", jsonOfContentType contentType), ("error", Json.str err)]

def noMatchMessage : String :=
  "No entry found with `file_type` of \"tar.gz\" or \"zip\" and a `url` field."

def noMatchContext (req up2 : Url) : Json :=
  Json.obj [("requestUrl", Json.str req.toStr), ("upstreamUrl", Json.str up2.toStr)]

def invalidUrlMessage : String := "Matched entry had an invalid URL."

def invalidUrlContext (req up2 : Url) (m : DirectMatch) : Json :=
  Json.obj [("requestUrl", Json.str req.toStr), ("upstreamUrl", Json.str up2.toStr),
    ("match", Json.obj [("url", Json.str m.url), ("fileType", Json.str m.fileType),
      ("jsonPath", Json.str m.jsonPath)])]

/-- `upstreamUrl.searchParams.delete("direct")` (line 109): remove every
query parameter named exactly `direct`. -/
def removeDirectParam (u : Url) : Url :=
  { u with params := u.params.filter fun p => p.1 != "direct" }

/-- The upstream request of the direct path (lines 113-116): a GET to the
canonical upstream JSON URL with an `accept: application/json` header. -/
def directFetchReq (up2 : Url) : FetchReq :=
  { url := up2, method := "GET", headers := [("accept", "application/json")] }

/-- The direct-resolution path after the upstream fetch (lines 111-170):
network failures, non-2xx statuses (`res.ok` is status 200-299), JSON
parse failures, missing matches and invalid match URLs all produce
`notFoundWithContext` diagnostics; a valid match produces the 302 redirect
with the `Location` and `Cache-Control: no-store` headers and a null
body. -/
def handleDirectOutcome (req up2 : Url) : FetchOutcome → HandlerResult
  | FetchOutcome.networkError err =>
    HandlerResult.response
      (notFoundWithContext fetchFailedMessage (netErrContext req up2 err))
  | FetchOutcome.success status statusText contentType body =>
    if 200 ≤ status ∧ status ≤ 299 then
      match body with
      | JsonBody.parseError err =>
        HandlerResult.response
          (notFoundWithContext badJsonMessage (badJsonContext req up2 contentType err))
      | JsonBody.json j =>
        match findFirstDirectMatch j with
        | none =>
          HandlerResult.response
            (notFoundWithContext noMatchMessage (noMatchContext req up2))
        | some m =>
          if isValidAbsoluteUrl m.url then
            HandlerResult.response
              { status := 302
                headers := [("location", m.url), ("cache-control", "no-store")]
                body := none }
          else
            HandlerResult.response
              (notFoundWithContext invalidUrlMessage (invalidUrlContext req up2 m))
    else
      HandlerResult.response
        (notFoundWithContext nonOkMessage (nonOkContext req up2 status statusText contentType))

/-- The worker's `fetch` handler (lines 88-171), with the network as an
oracle.  The upstream URL is computed first (a missing marker is a 404
diagnostic); non-direct requests pass through to the upstream URL; direct
requests delete the `direct` parameter and resolve the fetched JSON.  The
function is total: no failure is raised to the caller. -/
def fetchHandler (req : Url) (oracle : FetchReq → FetchOutcome) : HandlerResult :=
  match buildUpstreamMetadataUrl req with
  | none =>
    HandlerResult.response
      (notFoundWithContext missingMarkerMessage (missingMarkerContext req))
  | some up =>
    if isDirectJsonRequest req then
      handleDirectOutcome req (removeDirectParam up)
        (oracle (directFetchReq (removeDirectParam up)))
    else
      HandlerResult.passThrough up

/-- Claim C7: for every message string and context, `notFoundWithContext`
produces status 404 with content type `text/plain; charset=utf-8`, and a
body that is exactly the banner line `404 Not Found`, a blank line, the
message, a blank line, the literal line `Context:`, and the context
serialized as 2-space-indented JSON followed by a trailing newline. -/
theorem notFoundWithContext_format (message : String) (context : Json) :
    notFoundWithContext message context =
      { status := 404
        headers := [("content-type", "text/plain; charset=utf-8")]
        body := some (String.intercalate "\n"
          ["404 Not Found", "", message, "", "Context:",
           stringifyIndent 0 context ++ "\n"]) } := by
  unfold notFoundWithContext
  refine congrArg _ ?_
  refine congrArg _ ?_
  simp only [String.intercalate, String.intercalate.go]
  apply String.ext
  simp only [String.data_append]
  simp [List.append_assoc]

/-- Claim C3, amended: a request is classified as direct-resolution iff its
query has a parameter named `direct` (presence only) and its path compared
case-insensitively ends with `.json`; every other request whose path
contains the `/metadata/` marker takes the plain pass-through proxy path,
while a request without the marker receives the 404 routing diagnostic
instead of passing through. -/
theorem direct_classification (u : Url) :
    (isDirectJsonRequest u = true ↔
      (∃ v, ("direct", v) ∈ u.params) ∧
        ".json".data <:+ (toLowerStr u.pathname).data) ∧
    (∀ (oracle : FetchReq → FetchOutcome) (up : Url),
      buildUpstreamMetadataUrl u = some up → isDirectJsonRequest u = false →
        fetchHandler u oracle = HandlerResult.passThrough up) ∧
    (∀ oracle : FetchReq → FetchOutcome,
      buildUpstreamMetadataUrl u = none →
        fetchHandler u oracle = HandlerResult.response
          (notFoundWithContext missingMarkerMessage (missingMarkerContext u))) := by
  refine ⟨?_, ?_, ?_⟩
  · unfold isDirectJsonRequest endsWithStr
    rw [Bool.and_eq_true, List.any_eq_true, List.isSuffixOf_iff_suffix]
    constructor
    · rintro ⟨⟨p, hp, hpd⟩, hsuf⟩
      have hd : p.1 = "direct" := by simpa using hpd
      refine ⟨⟨p.2, ?_⟩, hsuf⟩
      have : (p.1, p.2) ∈ u.params := by simpa using hp
      rw [← hd]
      exact this
    · rintro ⟨⟨v, hv⟩, hsuf⟩
      exact ⟨⟨("direct", v), hv, by simp⟩, hsuf⟩
  · intro oracle up hup hdir
    simp [fetchHandler, hup, hdir]
  · intro oracle hnone
    simp [fetchHandler, hnone]

/-- Witness for C3 (amended): a marker-bearing `.xml` request with a
`direct` parameter, and a marker-bearing `.json` request without one, both
pass through. -/
theorem direct_classification_witness :
    fetchHandler
        { scheme := "https", host := "example.com",
          pathname := "/metadata/ga/foo.json", params := [("v", "1")], hash := "" }
        (fun _ => FetchOutcome.networkError "unreachable") =
      HandlerResult.passThrough
        { scheme := upstreamScheme, host := upstreamHost,
          pathname := "/jdkdb-data/metadata/ga/foo.json",
          params := [("v", "1")], hash := "" } :=
  (direct_classification _).2.1 _ _ (by decide) (by decide)

/-- Counterexample to C3 as stated: the claim says every request that is
not classified direct "takes the plain pass-through proxy path", but a
request whose path lacks the `/metadata/` marker is answered with the 404
routing diagnostic and does not pass through. -/
theorem direct_classification_counterexample :
    isDirectJsonRequest
        { scheme := "https", host := "example.com", pathname := "/foo.json",
          params := [], hash := "" } = false ∧
    (fetchHandler
        { scheme := "https", host := "example.com", pathname := "/foo.json",
          params := [], hash := "" }
        (fun _ => FetchOutcome.networkError "unreachable")).takesPassThrough
      = false := by
  constructor
  · decide
  · rfl

/-- Claim C10: the `direct` parameter name is matched case-sensitively: a
request whose lowercased path ends in `.json` but whose query has no
parameter named exactly `direct` (for example only `Direct` or `DIRECT`)
is not classified direct, and with the marker present it passes
through. -/
theorem direct_param_case_sensitive :
    (∀ u : Url, ".json".data <:+ (toLowerStr u.pathname).data →
      (∀ p ∈ u.params, p.1 ≠ "direct") → isDirectJsonRequest u = false) ∧
    (∀ (u : Url) (oracle : FetchReq → FetchOutcome) (up : Url),
      buildUpstreamMetadataUrl u = some up →
      (∀ p ∈ u.params, p.1 ≠ "direct") →
      fetchHandler u oracle = HandlerResult.passThrough up) := by
  have hfalse : ∀ u : Url, (∀ p ∈ u.params, p.1 ≠ "direct") →
      isDirectJsonRequest u = false := by
    intro u hnone
    unfold isDirectJsonRequest
    have : u.params.any (fun p => p.1 == "direct") = false := by
      rw [List.any_eq_false]
      intro p hp
      simpa using hnone p hp
    simp [this]
  refine ⟨fun u _ h => hfalse u h, fun u oracle up hup h => ?_⟩
  simp [fetchHandler, hup, hfalse u h]

/-- Witness for C10: `?Direct` (capital D) on a `.JSON` path passes
through rather than resolving directly. -/
theorem direct_param_case_sensitive_witness :
    fetchHandler
        { scheme := "https", host := "example.com",
          pathname := "/metadata/ga/foo.JSON",
          params := [("Direct", ""), ("DIRECT", "1")], hash := "" }
        (fun _ => FetchOutcome.networkError "unreachable") =
      HandlerResult.passThrough
        { scheme := upstreamScheme, host := upstreamHost,
          pathname := "/jdkdb-data/metadata/ga/foo.JSON",
          params := [("Direct", ""), ("DIRECT", "1")], hash := "" } :=
  direct_param_case_sensitive.2 _ _ _ (by decide) (by decide)

/-- The builder copies query parameters and fragment and fixes scheme and
host. -/
theorem buildUpstream_components (u up : Url)
    (h : buildUpstreamMetadataUrl u = some up) :
    up.params = u.params ∧ up.hash = u.hash ∧
    up.scheme = upstreamScheme ∧ up.host = upstreamHost := by
  unfold buildUpstreamMetadataUrl at h
  cases hidx : indexOfSub markerStr.data u.pathname.data with
  | none => rw [hidx] at h; cases h
  | some idx => rw [hidx] at h; cases h; exact ⟨rfl, rfl, rfl, rfl⟩

/-- Claim C8: for every direct request, the handler consults the network
exactly at the upstream URL stripped of every `direct` query parameter,
with method GET and an `Accept: application/json` header; no parameter
named `direct` survives, and all other parameters are kept in order. -/
theorem direct_fetch_request (u : Url) (oracle : FetchReq → FetchOutcome) (up : Url)
    (hup : buildUpstreamMetadataUrl u = some up)
    (hdir : isDirectJsonRequest u = true) :
    fetchHandler u oracle =
      handleDirectOutcome u (removeDirectParam up)
        (oracle (directFetchReq (removeDirectParam up))) ∧
    (directFetchReq (removeDirectParam up)).method = "GET" ∧
    (directFetchReq (removeDirectParam up)).headers = [("accept", "application/json")] ∧
    (directFetchReq (removeDirectParam up)).url.params =
      u.params.filter (fun p => p.1 != "direct") ∧
    ∀ p ∈ (directFetchReq (removeDirectParam up)).url.params, p.1 ≠ "direct" := by
  refine ⟨by simp [fetchHandler, hup, hdir], rfl, rfl, ?_, ?_⟩
  · show (removeDirectParam up).params = _
    unfold removeDirectParam
    rw [(buildUpstream_components u up hup).1]
  · intro p hp
    have := (List.mem_filter.mp hp).2
    simpa using this

/-- Witness for C8 at a concrete direct request with repeated `direct`
parameters. -/
theorem direct_fetch_request_witness :
    (directFetchReq (removeDirectParam
      { scheme := upstreamScheme, host := upstreamHost,
        pathname := "/jdkdb-data/metadata/x.json",
        params := [("a", "1"), ("direct", ""), ("b", "2"), ("direct", "3")],
        hash := "" })).method = "GET" ∧
    (directFetchReq (removeDirectParam
      { scheme := upstreamScheme, host := upstreamHost,
        pathname := "/jdkdb-data/metadata/x.json",
        params := [("a", "1"), ("direct", ""), ("b", "2"), ("direct", "3")],
        hash := "" })).url.params = [("a", "1"), ("b", "2")] := by
  have h := direct_fetch_request
    { scheme := "https", host := "example.com", pathname := "/metadata/x.json",
      params := [("a", "1"), ("direct", ""), ("b", "2"), ("direct", "3")], hash := "" }
    (fun _ => FetchOutcome.networkError "unreachable")
    { scheme := upstreamScheme, host := upstreamHost,
      pathname := "/jdkdb-data/metadata/x.json",
      params := [("a", "1"), ("direct", ""), ("b", "2"), ("direct", "3")], hash := "" }
    (by decide) (by decide)
  exact ⟨h.2.1, by rw [h.2.2.2.1]; decide⟩

/-- Claim C5: a direct request whose upstream fetch succeeds (2xx), parses
as JSON, yields a match, and whose match url validates, is answered with a
302 response carrying `Location` set to the matched URL exactly as found,
`Cache-Control: no-store`, and an empty body. -/
theorem direct_success_redirect (u : Url) (oracle : FetchReq → FetchOutcome)
    (up : Url) (st : Nat) (stx : String) (ct : Option String) (j : Json)
    (m : DirectMatch)
    (hup : buildUpstreamMetadataUrl u = some up)
    (hdir : isDirectJsonRequest u = true)
    (horacle : oracle (directFetchReq (removeDirectParam up)) =
      FetchOutcome.success st stx ct (JsonBody.json j))
    (hok : 200 ≤ st ∧ st ≤ 299)
    (hmatch : findFirstDirectMatch j = some m)
    (hvalid : isValidAbsoluteUrl m.url = true) :
    fetchHandler u oracle = HandlerResult.response
      { status := 302
        headers := [("location", m.url), ("cache-control", "no-store")]
        body := none } := by
  simp [fetchHandler, hup, hdir, handleDirectOutcome, horacle, hok, hmatch, hvalid]

/-- Witness for C5: the end-to-end example of the spec, redirecting to
`https://dl.example/foo.zip`. -/
theorem direct_success_redirect_witness :
    fetchHandler
        { scheme := "https", host := "example.com",
          pathname := "/java/metadata/ga/linux/x86_64/foo.json",
          params := [("direct", "")], hash := "" }
        (fun _ => FetchOutcome.success 200 "OK" (some "application/json")
          (JsonBody.json (Json.obj [("file_type", Json.str "zip"),
            ("url", Json.str "https://dl.example/foo.zip")]))) =
      HandlerResult.response
        { status := 302
          headers := [("location", "https://dl.example/foo.zip"),
                      ("cache-control", "no-store")]
          body := none } :=
  direct_success_redirect _ _
    { scheme := upstreamScheme, host := upstreamHost,
      pathname := "/jdkdb-data/metadata/ga/linux/x86_64/foo.json",
      params := [("direct", "")], hash := "" }
    200 "OK" (some "application/json")
    (Json.obj [("file_type", Json.str "zip"),
      ("url", Json.str "https://dl.example/foo.zip")])
    ⟨"https://dl.example/foo.zip", "zip", ""⟩
    (by decide) (by decide) rfl (by decide) (by decide) (by decide)

/-- Claim C6, amended: when a direct request's traversal yields a match,
the handler redirects (302) exactly when `new URL(match.url)` succeeds —
which requires a URL scheme but, contrary to the original claim, not an
authority: a non-special url such as `mailto:hello` is accepted without
one.  A matched url with no scheme at all is never redirected (third
conjunct), and whenever parsing fails the handler returns the 404
diagnostic whose context carries the full match object (url, fileType,
jsonPath) together with the request and upstream URLs. -/
theorem match_url_validation (u : Url) (oracle : FetchReq → FetchOutcome)
    (up : Url) (st : Nat) (stx : String) (ct : Option String) (j : Json)
    (m : DirectMatch)
    (hup : buildUpstreamMetadataUrl u = some up)
    (hdir : isDirectJsonRequest u = true)
    (horacle : oracle (directFetchReq (removeDirectParam up)) =
      FetchOutcome.success st stx ct (JsonBody.json j))
    (hok : 200 ≤ st ∧ st ≤ 299)
    (hmatch : findFirstDirectMatch j = some m) :
    (isValidAbsoluteUrl m.url = true →
      fetchHandler u oracle = HandlerResult.response
        { status := 302
          headers := [("location", m.url), ("cache-control", "no-store")]
          body := none }) ∧
    (isValidAbsoluteUrl m.url = false →
      fetchHandler u oracle = HandlerResult.response
        (notFoundWithContext invalidUrlMessage
          (invalidUrlContext u (removeDirectParam up) m))) ∧
    (∀ s : String, parseScheme (urlInput s) = none →
      isValidAbsoluteUrl s = false) := by
  refine ⟨fun hvalid => direct_success_redirect u oracle up st stx ct j m
    hup hdir horacle hok hmatch hvalid, fun hinvalid => ?_, fun s hs => ?_⟩
  · simp [fetchHandler, hup, hdir, handleDirectOutcome, horacle, hok, hmatch, hinvalid]
  · simp [isValidAbsoluteUrl, canParseUrl, hs]

/-- Witness for C6 (amended): an invalid match url (`"not a url"`, no
scheme) yields the 404 with the match in its context. -/
theorem match_url_validation_witness :
    fetchHandler
        { scheme := "https", host := "example.com",
          pathname := "/metadata/ga/foo.json", params := [("direct", "")], hash := "" }
        (fun _ => FetchOutcome.success 200 "OK" (some "application/json")
          (JsonBody.json (Json.obj [("file_type", Json.str "tar.gz"),
            ("url", Json.str "not a url")]))) =
      HandlerResult.response
        (notFoundWithContext invalidUrlMessage
          (invalidUrlContext
            { scheme := "https", host := "example.com",
              pathname := "/metadata/ga/foo.json", params := [("direct", "")],
              hash := "" }
            { scheme := upstreamScheme, host := upstreamHost,
              pathname := "/jdkdb-data/metadata/ga/foo.json", params := [],
              hash := "" }
            ⟨"not a url", "tar.gz", ""⟩)) :=
  (match_url_validation _ _
    { scheme := upstreamScheme, host := upstreamHost,
      pathname := "/jdkdb-data/metadata/ga/foo.json",
      params := [("direct", "")], hash := "" }
    200 "OK" (some "application/json")
    (Json.obj [("file_type", Json.str "tar.gz"), ("url", Json.str "not a url")])
    ⟨"not a url", "tar.gz", ""⟩
    (by decide) (by decide) rfl (by decide) (by decide)).2.1 (by decide)

/-- Counterexample to C6 as stated: the claim requires both a scheme and an
authority for the redirect, but `new URL("mailto:hello")` parses (a
non-special scheme needs no authority), so the worker redirects to a
matched url that has no authority at all. -/
theorem match_url_validation_counterexample :
    (fetchHandler
        { scheme := "https", host := "example.com",
          pathname := "/metadata/ga/foo.json", params := [("direct", "")], hash := "" }
        (fun _ => FetchOutcome.success 200 "OK" (some "application/json")
          (JsonBody.json (Json.obj [("file_type", Json.str "zip"),
            ("url", Json.str "mailto:hello")]))) =
      HandlerResult.response
        { status := 302
          headers := [("location", "mailto:hello"), ("cache-control", "no-store")]
          body := none }) ∧
    urlHasAuthority "mailto:hello" = false := by
  constructor
  · rfl
  · decide

/-- Claim C4: every failure kind — missing `/metadata/` marker, upstream
fetch exception, non-2xx upstream status, JSON parse failure, no
qualifying match, invalid match url — produces a 404 diagnostic; the
handler never returns a 5xx status (every response it builds itself is 404
or the 302 redirect) and, being a total function of the request and the
network outcome, never raises to the caller.  The upstream-status context
carries `upstreamStatus`, so a status-500 fetch yields a 404 whose context
contains `upstreamStatus: 500` (see the witness); a missing marker yields
a 404 whose message contains the `/metadata/` marker. -/
theorem error_taxonomy_404 (req : Url) (oracle : FetchReq → FetchOutcome) :
    (∀ (m : String) (c : Json), (notFoundWithContext m c).status = 404) ∧
    (∀ r, fetchHandler req oracle = HandlerResult.response r →
      r.status = 404 ∨ r.status = 302) ∧
    (buildUpstreamMetadataUrl req = none →
      fetchHandler req oracle = HandlerResult.response
        (notFoundWithContext missingMarkerMessage (missingMarkerContext req)) ∧
      ∃ pre post : List Char,
        missingMarkerMessage.data = pre ++ markerStr.data ++ post) ∧
    (∀ up, buildUpstreamMetadataUrl req = some up → isDirectJsonRequest req = true →
      (∀ err, oracle (directFetchReq (removeDirectParam up)) =
          FetchOutcome.networkError err →
        fetchHandler req oracle = HandlerResult.response
          (notFoundWithContext fetchFailedMessage
            (netErrContext req (removeDirectParam up) err))) ∧
      (∀ st stx ct b, oracle (directFetchReq (removeDirectParam up)) =
          FetchOutcome.success st stx ct b → ¬(200 ≤ st ∧ st ≤ 299) →
        fetchHandler req oracle = HandlerResult.response
          (notFoundWithContext nonOkMessage
            (nonOkContext req (removeDirectParam up) st stx ct))) ∧
      (∀ st stx ct err, oracle (directFetchReq (removeDirectParam up)) =
          FetchOutcome.success st stx ct (JsonBody.parseError err) →
          200 ≤ st → st ≤ 299 →
        fetchHandler req oracle = HandlerResult.response
          (notFoundWithContext badJsonMessage
            (badJsonContext req (removeDirectParam up) ct err))) ∧
      (∀ st stx ct j, oracle (directFetchReq (removeDirectParam up)) =
          FetchOutcome.success st stx ct (JsonBody.json j) →
          200 ≤ st → st ≤ 299 → findFirstDirectMatch j = none →
        fetchHandler req oracle = HandlerResult.response
          (notFoundWithContext noMatchMessage
            (noMatchContext req (removeDirectParam up)))) ∧
      (∀ st stx ct j m, oracle (directFetchReq (removeDirectParam up)) =
          FetchOutcome.success st stx ct (JsonBody.json j) →
          200 ≤ st → st ≤ 299 → findFirstDirectMatch j = some m →
          isValidAbsoluteUrl m.url = false →
        fetchHandler req oracle = HandlerResult.response
          (notFoundWithContext invalidUrlMessage
            (invalidUrlContext req (removeDirectParam up) m)))) := by
  refine ⟨fun m c => rfl, ?_, ?_, ?_⟩
  · intro r hr
    simp only [fetchHandler] at hr
    split at hr
    · cases hr
      left; rfl
    · split at hr
      · rename_i up hbu2 hd
        cases hout : oracle (directFetchReq (removeDirectParam up)) with
        | networkError err =>
          rw [hout] at hr
          simp only [handleDirectOutcome] at hr
          cases hr
          left; rfl
        | success st stx ct b =>
          rw [hout] at hr
          simp only [handleDirectOutcome] at hr
          split at hr
          · split at hr
            · cases hr
              left; rfl
            · split at hr
              · cases hr
                left; rfl
              · split at hr
                · cases hr
                  right; rfl
                · cases hr
                  left; rfl
          · cases hr
            left; rfl
      · cases hr
  · intro hnone
    refine ⟨by simp [fetchHandler, hnone], "Request path did not contain a ".data,
      " segment, so it could not be proxied.".data, by decide⟩
  · intro up hup hdir
    refine ⟨?_, ?_, ?_, ?_, ?_⟩
    · intro err hout
      simp [fetchHandler, hup, hdir, handleDirectOutcome, hout]
    · intro st stx ct b hout hnok
      simp [fetchHandler, hup, hdir, handleDirectOutcome, hout, hnok]
    · intro st stx ct err hout h1 h2
      simp [fetchHandler, hup, hdir, handleDirectOutcome, hout, h1, h2]
    · intro st stx ct j hout h1 h2 hm
      simp [fetchHandler, hup, hdir, handleDirectOutcome, hout, h1, h2, hm]
    · intro st stx ct j m hout h1 h2 hm hv
      simp [fetchHandler, hup, hdir, handleDirectOutcome, hout, h1, h2, hm, hv]

/-- Witness for C4: a direct fetch whose upstream answers 500 produces the
404 whose context records `upstreamStatus: 500`; and a marker-less path
produces the missing-marker 404. -/
theorem error_taxonomy_404_witness :
    (fetchHandler
        { scheme := "https", host := "example.com",
          pathname := "/metadata/ga/foo.json", params := [("direct", "")], hash := "" }
        (fun _ => FetchOutcome.success 500 "Internal Server Error"
          (some "text/html") (JsonBody.json Json.null)) =
      HandlerResult.response
        (notFoundWithContext nonOkMessage
          (nonOkContext
            { scheme := "https", host := "example.com",
              pathname := "/metadata/ga/foo.json", params := [("direct", "")],
              hash := "" }
            { scheme := upstreamScheme, host := upstreamHost,
              pathname := "/jdkdb-data/metadata/ga/foo.json", params := [],
              hash := "" }
            500 "Internal Server Error" (some "text/html")))) ∧
    (fetchHandler
        { scheme := "https", host := "example.com", pathname := "/foo.json",
          params := [], hash := "" }
        (fun _ => FetchOutcome.networkError "unreachable") =
      HandlerResult.response
        (notFoundWithContext missingMarkerMessage
          (missingMarkerContext
            { scheme := "https", host := "example.com", pathname := "/foo.json",
              params := [], hash := "" }))) :=
  ⟨((error_taxonomy_404 _ _).2.2.2
      { scheme := upstreamScheme, host := upstreamHost,
        pathname := "/jdkdb-data/metadata/ga/foo.json",
        params := [("direct", "")], hash := "" }
      (by decide) (by decide)).2.1 500 "Internal Server Error" (some "text/html")
      (JsonBody.json Json.null) rfl (by decide),
   ((error_taxonomy_404 _ _).2.2.1 (by decide)).1⟩

/-! ### Object-graph model of the traversal (claim C9)

JavaScript values form an object graph: objects and arrays are references
into a heap and may be shared or even cyclic (`JSON.parse` never produces
sharing, but `findFirstDirectMatch` is written defensively against it).
`GVal` is a value (a non-object leaf, a string, or a reference), `GNode`
the content of a heap slot, and the heap an association list from
reference ids to contents.  `walkGraph` renders `walk`'s depth-first
recursion with the mutable `seen` set threaded explicitly: the worklist
holds the pending (value, path) pairs in exactly the recursion's visit
order; a hit returns immediately.  Its termination is by well-founded
recursion on (number of unvisited heap ids, worklist length) — precisely
the spec's argument that the seen set prevents revisits. -/

/-- A JavaScript value in the graph model: `leaf` covers null, booleans
and numbers (`typeof` is not "object" and not "string"). -/
inductive GVal where
  | leaf : GVal
  | str (s : String) : GVal
  | ref (id : Nat) : GVal
deriving DecidableEq, Repr

/-- Content of a heap slot: an array of values or an object of fields. -/
inductive GNode where
  | arr (elems : List GVal) : GNode
  | obj (fields : List (String × GVal)) : GNode
deriving DecidableEq, Repr

/-- The ids present in a heap. -/
def heapIds (heap : List (Nat × GNode)) : List Nat :=
  heap.map Prod.fst

/-- Worklist entries for the elements of an array node, in index order. -/
def gChildrenArr (path : String) (i : Nat) : List GVal → List (GVal × String)
  | [] => []
  | v :: vs => (v, indexPath path i) :: gChildrenArr path (i + 1) vs

/-- Worklist entries for the field values of an object node, in insertion
order. -/
def gChildrenObj (path : String) : List (String × GVal) → List (GVal × String)
  | [] => []
  | (k, v) :: fs => (v, fieldPath path k) :: gChildrenObj path fs

/-- The object-match step of `walk` in the graph model (same logic as
`objMatch`, including the `fileType && url` truthiness check: both
strings must be nonempty). -/
def gObjMatch (fields : List (String × GVal)) (path : String) : Option DirectMatch :=
  let fileType : Option String :=
    match List.lookup "file_type" fields with
    | some (GVal.str s) => some (toLowerStr s)
    | _ => none
  let url : Option String :=
    match List.lookup "url" fields with
    | some (GVal.str s) => some s
    | _ => none
  match fileType, url with
  | some ft, some u =>
    if ft ≠ "" ∧ u ≠ "" ∧ ft ∈ targetTypes then some ⟨u, ft, path⟩ else none
  | _, _ => none

/-- Number of heap ids not yet in the seen set: the decreasing measure of
the traversal. -/
def unvisitedCount (heap : List (Nat × GNode)) (seen : List Nat) : Nat :=
  ((heapIds heap).filter fun i => decide (i ∉ seen)).length

theorem filter_length_mono (l : List Nat) (p q : Nat → Bool)
    (h : ∀ a, p a = true → q a = true) :
    (l.filter p).length ≤ (l.filter q).length := by
  induction l with
  | nil => exact Nat.le_refl 0
  | cons a t ih =>
    by_cases hp : p a = true
    · rw [List.filter_cons_of_pos hp, List.filter_cons_of_pos (h a hp)]
      exact Nat.succ_le_succ ih
    · rw [List.filter_cons_of_neg (by simpa using hp)]
      by_cases hq : q a = true
      · rw [List.filter_cons_of_pos hq]
        exact Nat.le_succ_of_le ih
      · rw [List.filter_cons_of_neg (by simpa using hq)]
        exact ih

theorem filter_notMem_cons_lt (seen : List Nat) (id : Nat) (h2 : id ∉ seen) :
    ∀ l : List Nat, id ∈ l →
      (l.filter fun i => decide (i ∉ id :: seen)).length <
        (l.filter fun i => decide (i ∉ seen)).length := by
  intro l
  induction l with
  | nil => intro h; cases h
  | cons a t ih =>
    intro hmem
    have hmono : (t.filter fun i => decide (i ∉ id :: seen)).length ≤
        (t.filter fun i => decide (i ∉ seen)).length := by
      refine filter_length_mono t _ _ fun b hb => ?_
      have hb' : b ∉ id :: seen := of_decide_eq_true hb
      exact decide_eq_true fun hbs => hb' (List.mem_cons_of_mem id hbs)
    by_cases ha : a = id
    · subst ha
      rw [List.filter_cons_of_neg (by simp), List.filter_cons_of_pos (by simpa using h2)]
      exact Nat.lt_succ_of_le hmono
    · have hmem' : id ∈ t := by
        cases hmem with
        | head => exact absurd rfl ha
        | tail _ h => exact h
      by_cases has : a ∈ seen
      · rw [List.filter_cons_of_neg (by simp [has]),
          List.filter_cons_of_neg (by simp [has])]
        exact ih hmem'
      · rw [List.filter_cons_of_pos (by simp [has, ha]),
          List.filter_cons_of_pos (by simp [has])]
        exact Nat.succ_lt_succ (ih hmem')

/-- Adding a fresh heap id to the seen set strictly decreases the number
of unvisited ids. -/
theorem unvisitedCount_insert_lt (heap : List (Nat × GNode)) (seen : List Nat)
    (id : Nat) (h1 : id ∈ heapIds heap) (h2 : id ∉ seen) :
    unvisitedCount heap (id :: seen) < unvisitedCount heap seen :=
  filter_notMem_cons_lt seen id h2 (heapIds heap) h1

theorem mem_heapIds_of_lookup {heap : List (Nat × GNode)} {id : Nat} {n : GNode}
    (h : List.lookup id heap = some n) : id ∈ heapIds heap := by
  induction heap with
  | nil => cases h
  | cons e t ih =>
    obtain ⟨a, b⟩ := e
    by_cases ha : id = a
    · subst ha
      exact List.mem_cons_self _ _
    · have hba : (id == a) = false := beq_eq_false_iff_ne.mpr ha
      have h' : List.lookup id t = some n := by
        rw [List.lookup_cons] at h
        simpa [hba] using h
      exact List.mem_cons_of_mem _ (ih h')

/-- `findFirstDirectMatch`'s depth-first traversal over an object graph,
with the source's `seen` set explicit.  Each worklist entry is a pending
`walk(node, path)` call; leaves and strings return no match and move on;
an already-seen reference is skipped (`if (seen.has(node)) return null`);
a fresh reference is added to `seen` and either matches (objects, checked
before the field loop) or pushes its children in front of the rest of the
worklist. -/
def walkGraph (heap : List (Nat × GNode)) :
    List (GVal × String) → List Nat → Option DirectMatch
  | [], _ => none
  | (v, path) :: rest, seen =>
    match v with
    | GVal.leaf => walkGraph heap rest seen
    | GVal.str _ => walkGraph heap rest seen
    | GVal.ref id =>
      if hseen : id ∈ seen then walkGraph heap rest seen
      else
        match hnode : List.lookup id heap with
        | none => walkGraph heap rest seen
        | some (GNode.arr elems) =>
          walkGraph heap (gChildrenArr path 0 elems ++ rest) (id :: seen)
        | some (GNode.obj fields) =>
          match gObjMatch fields path with
          | some m => some m
          | none =>
            walkGraph heap (gChildrenObj path fields ++ rest) (id :: seen)
termination_by items seen => (unvisitedCount heap seen, items.length)
decreasing_by
  all_goals first
    | exact Prod.Lex.right _ (Nat.lt_succ_self _)
    | exact Prod.Lex.left _ _
        (unvisitedCount_insert_lt heap seen id (mem_heapIds_of_lookup hnode) hseen)

/-- `findFirstDirectMatch` over an object graph: walk from the root with
the empty path and an empty seen set. -/
def findFirstDirectMatchGraph (heap : List (Nat × GNode)) (root : GVal) :
    Option DirectMatch :=
  walkGraph heap [(root, "")] []

/-- A cyclic heap: object 0 references itself. -/
def cyclicHeap : List (Nat × GNode) :=
  [(0, GNode.obj [("self", GVal.ref 0), ("file_type", GVal.str "zip")])]

/-- A heap with a repeated reference: the array visits object 1 twice
before reaching the matching object 2. -/
def sharedHeap : List (Nat × GNode) :=
  [(0, GNode.arr [GVal.ref 1, GVal.ref 1, GVal.ref 2]),
   (1, GNode.obj [("x", GVal.str "y")]),
   (2, GNode.obj [("file_type", GVal.str "TAR.GZ"),
                  ("url", GVal.str "https://h/f.tar.gz")])]

/-- Claim C9: the traversal terminates on every object graph — `walkGraph`
is total, being defined by well-founded recursion on the number of heap
ids not yet in the seen set — precisely because each visited
object/array reference is recorded in the seen set before its children
are walked (second conjunct) and an already-visited reference is skipped,
never revisited (first conjunct).  In particular it computes on a cyclic
self-referencing object and on a graph with a repeated reference (last
two conjuncts). -/
theorem walkGraph_terminates :
    (∀ (heap : List (Nat × GNode)) (rest : List (GVal × String))
        (seen : List Nat) (id : Nat) (path : String), id ∈ seen →
      walkGraph heap ((GVal.ref id, path) :: rest) seen = walkGraph heap rest seen) ∧
    (∀ (heap : List (Nat × GNode)) (rest : List (GVal × String))
        (seen : List Nat) (id : Nat) (path : String)
        (fields : List (String × GVal)),
      id ∉ seen → List.lookup id heap = some (GNode.obj fields) →
      gObjMatch fields path = none →
      walkGraph heap ((GVal.ref id, path) :: rest) seen =
        walkGraph heap (gChildrenObj path fields ++ rest) (id :: seen)) ∧
    findFirstDirectMatchGraph cyclicHeap (GVal.ref 0) = none ∧
    findFirstDirectMatchGraph sharedHeap (GVal.ref 0) =
      some ⟨"https://h/f.tar.gz", "tar.gz", "[2]"⟩ := by
  refine ⟨?_, ?_, ?_, ?_⟩
  · intro heap rest seen id path h
    rw [walkGraph]
    simp [h]
  · intro heap rest seen id path fields hid hlook hm
    rw [walkGraph]
    rw [dif_neg hid]
    split
    · rename_i hnode
      rw [hlook] at hnode
      cases hnode
    · rename_i elems hnode
      rw [hlook] at hnode
      injection hnode with h'
      cases h'
    · rename_i flds hnode
      rw [hlook] at hnode
      injection hnode with h'
      injection h' with h''
      subst h''
      simp [hm]
  · simp [findFirstDirectMatchGraph, walkGraph, cyclicHeap, gObjMatch,
      gChildrenObj, fieldPath, toLowerStr, targetTypes, List.lookup]
  · simp [findFirstDirectMatchGraph, walkGraph, sharedHeap, gObjMatch,
      gChildrenObj, gChildrenArr, fieldPath, indexPath, toLowerStr,
      targetTypes, List.lookup]
    decide

/-- Witness for C9: the skip-visited clause at a concrete visited
reference. -/
theorem walkGraph_terminates_witness :
    walkGraph cyclicHeap [(GVal.ref 0, "self")] [0] = walkGraph cyclicHeap [] [0] :=
  walkGraph_terminates.1 cyclicHeap [] [0] 0 "self" (by decide)

/-- Witness for C7 at concrete message and context. -/
theorem notFoundWithContext_format_witness :
    notFoundWithContext "boom" (Json.obj [("k", Json.num 5)]) =
      { status := 404
        headers := [("content-type", "text/plain; charset=utf-8")]
        body := some
          "404 Not Found\n\nboom\n\nContext:\n\x7b\n  \"k\": 5\n\x7d\n" } :=
  (notFoundWithContext_format "boom" (Json.obj [("k", Json.num 5)])).trans (by decide)
